import Mathlib

/-!
Verification of `db_stats.py`: a Neo4j statistics utility that joins
node-label counts with index metadata and aggregates relationship
counts. We embed the record-processing and aggregation logic of
`get_node_stats`, `get_relationship_stats`, `get_db_choice` and `main`
as pure Lean functions over explicit query outcomes
(`Except String (List record)` models a query that either yields its
records or raises), and prove the specified properties about them.
-/

namespace DbStats

/-- A record of the node-label count query: fields `label` and `count`.
`label` is `Option` because the code checks `record.get("label") is not None`. -/
structure LabelRecord where
  label : Option String
  count : Int
deriving DecidableEq, Repr

/-- An entry of the intermediate `node_stats` list: `{"Label": ..., "Count": ...}`. -/
structure NodeEntry where
  label : String
  count : Int
deriving DecidableEq, Repr

/-- An index-catalog record as returned by `SHOW INDEXES`; every field is
optional because the code reads them with `dict.get` and defaults. -/
structure IndexInfo where
  name : Option String
  type : Option String
  labelsOrTypes : Option (List String)
  properties : Option (List String)
deriving DecidableEq, Repr

/-- An output row of `get_node_stats`:
`{"Node Label", "Count", "Index Name", "Index Type", "Indexed Property"}`. -/
structure NodeStatRow where
  nodeLabel : String
  count : Int
  indexName : String
  indexType : String
  indexedProperty : String
deriving DecidableEq, Repr

/-- `label in (idx.get("labelsOrTypes") or [])`. -/
def indexMatches (label : String) (idx : IndexInfo) : Bool :=
  (idx.labelsOrTypes.getD []).contains label

/-- The row built for one matching index (lines 55-61 of `db_stats.py`). -/
def mkIndexRow (label : String) (count : Int) (idx : IndexInfo) : NodeStatRow :=
  { nodeLabel := label
    count := count
    indexName := idx.name.getD "N/A"
    indexType := idx.type.getD "N/A"
    indexedProperty := String.intercalate ", " (idx.properties.getD []) }

/-- The fallback row for a label with no matching index (lines 63-69). -/
def noIndexRow (label : String) (count : Int) : NodeStatRow :=
  { nodeLabel := label
    count := count
    indexName := "No Index"
    indexType := "N/A"
    indexedProperty := "N/A" }

/-- The combine loop of `get_node_stats` (lines 47-71): for each node entry,
append one row per matching index, or the single fallback row. -/
def combineStats (node_stats : List NodeEntry) (index_info : List IndexInfo) :
    List NodeStatRow :=
  node_stats.foldl
    (fun final_stats node =>
      let label_indexes := index_info.filter (indexMatches node.label)
      if label_indexes.isEmpty then
        final_stats ++ [noIndexRow node.label node.count]
      else
        final_stats ++ label_indexes.map (mkIndexRow node.label node.count))
    []

/-- The per-node-entry row block (the loop body of lines 48-69, factored). -/
def rowsForNode (index_info : List IndexInfo) (label : String) (count : Int) :
    List NodeStatRow :=
  let label_indexes := index_info.filter (indexMatches label)
  if label_indexes.isEmpty then [noIndexRow label count]
  else label_indexes.map (mkIndexRow label count)

/-- Lines 27-36: iterate the label-count result, keeping records whose
`label` is not `None`; an exception while iterating is caught and turned
into a warning (the records are then lost, modelled as the empty list). -/
def processNodeRecords :
    Except String (List LabelRecord) → List NodeEntry × List String
  | .error e => ([], ["Warning: Error processing node labels: " ++ e])
  | .ok recs =>
      (recs.filterMap (fun r => r.label.map (fun l => ⟨l, r.count⟩)), [])

/-- Lines 39-44: fetch `SHOW INDEXES`; on failure warn and use `[]`. -/
def fetchIndexInfo :
    Except String (List IndexInfo) → List IndexInfo × List String
  | .error e => ([], ["Warning: Could not fetch index information: " ++ e])
  | .ok l => (l, [])

/-- `get_node_stats` over explicit query outcomes: returns the final rows
together with the warnings printed along the way. -/
def get_node_stats (labelRes : Except String (List LabelRecord))
    (indexRes : Except String (List IndexInfo)) :
    List NodeStatRow × List String :=
  let ns := processNodeRecords labelRes
  let ii := fetchIndexInfo indexRes
  (combineStats ns.1 ii.1, ns.2 ++ ii.2)

/-- A record of the relationship-count query. -/
structure RelRecord where
  relationshipType : Option String
  startLabel : String
  endLabel : String
  count : Int
deriving DecidableEq, Repr

/-- An output row of `get_relationship_stats`. -/
structure RelStatRow where
  relationship : String
  startNode : String
  endNode : String
  count : Int
deriving DecidableEq, Repr

/-- Lines 87-100: iterate the relationship result, keeping records whose
`relationshipType` is not `None`; a failure yields a warning and no rows. -/
def get_relationship_stats :
    Except String (List RelRecord) → List RelStatRow × List String
  | .error e => ([], ["Warning: Error processing relationships: " ++ e])
  | .ok recs =>
      (recs.filterMap (fun r =>
        r.relationshipType.map (fun t => ⟨t, r.startLabel, r.endLabel, r.count⟩)), [])

/-- A directed edge of the graph, as seen by the relationship query:
its type and the label lists of its endpoints. -/
structure Edge where
  relType : String
  startLabels : List String
  endLabels : List String
deriving DecidableEq, Repr

/-- `CASE WHEN size(labels(n)) > 0 THEN head(labels(n)) ELSE '(no label)' END`. -/
def headLabel : List String → String
  | [] => "(no label)"
  | l :: _ => l

/-- The grouping key `(relType, startLabel, endLabel)` of an edge. -/
def tripleOf (e : Edge) : String × String × String :=
  (e.relType, headLabel e.startLabels, headLabel e.endLabels)

/-- The distinct grouping keys, in first-appearance order (the implicit
grouping of the Cypher `WITH relType, startLabel, endLabel, count(*)`). -/
def distinctTriples (es : List Edge) : List (String × String × String) :=
  es.foldl (fun acc e => if tripleOf e ∈ acc then acc else acc ++ [tripleOf e]) []

/-- The size of the group of edges sharing the key `t`. -/
def tripleCount (es : List Edge) (t : String × String × String) : Nat :=
  (es.filter (fun e => tripleOf e = t)).length

/-- `ORDER BY count DESC` on relationship records. -/
def countGE (a b : RelRecord) : Prop := b.count ≤ a.count

instance : DecidableRel countGE := fun a b =>
  inferInstanceAs (Decidable (b.count ≤ a.count))

instance : IsTotal RelRecord countGE := ⟨fun a b => le_total b.count a.count⟩

instance : IsTrans RelRecord countGE := ⟨fun _ _ _ h1 h2 => le_trans h2 h1⟩

/-- The records produced by the relationship query of lines 75-85 on an
edge set: one record per distinct `(relType, startLabel, endLabel)` key,
counting the group, sorted by count descending. -/
def relQueryRecords (es : List Edge) : List RelRecord :=
  List.insertionSort countGE
    ((distinctTriples es).map (fun t =>
      ⟨some t.1, t.2.1, t.2.2, (tripleCount es t : Int)⟩))

/-- `get_db_choice` (lines 102-122) over an environment and the sequence of
interactive inputs: returns `none` when the inputs are exhausted without a
valid choice (the loop would keep re-prompting), otherwise the credential
triple selected by the first valid entry. -/
def get_db_choice (env : String → Option String) :
    List String → Option (Option String × Option String × Option String)
  | [] => none
  | c :: rest =>
    let choice := c.trim
    if choice = "1" then
      some (env "LOCAL_NEO4J_URI", env "LOCAL_NEO4J_USERNAME", env "LOCAL_NEO4J_PASSWORD")
    else if choice = "2" then
      some (env "NEO4J_URI", env "NEO4J_USERNAME", env "NEO4J_PASSWORD")
    else
      get_db_choice env rest

/-- Whether an input would be accepted by the loop of `get_db_choice`. -/
def validChoice (s : String) : Bool := s.trim = "1" || s.trim = "2"

/-- The observable effects of one run of `main` (lines 124-145). -/
structure MainTrace where
  closeCalls : Nat
  errorPrinted : Bool
deriving DecidableEq, Repr

/-- `main`'s `try`/`except`/`finally` structure: `stats` starts as `None`;
the constructor may fail inside the `try` (leaving `stats` as `None`), the
query/print body may fail after it; any exception is caught and printed;
the `finally` block calls `close` exactly when `stats is not None`. -/
def runMain (construct : Except String Unit) (body : Except String Unit) :
    MainTrace :=
  let (stats, outcome) :=
    match construct with
    | .error e => ((none : Option Unit), Except.error e)
    | .ok _ => (some (), body)
  let errorPrinted := match outcome with
    | .error _ => true
    | .ok _ => false
  { closeCalls := if stats.isSome then 1 else 0
    errorPrinted := errorPrinted }

/-- The grouping key carried by an output row of `get_relationship_stats`. -/
def rowTriple (r : RelStatRow) : String × String × String :=
  (r.relationship, r.startNode, r.endNode)

/-- The grouping key carried by a relationship record (with the `Option`
on the type collapsed by its default). -/
def recTriple (r : RelRecord) : String × String × String :=
  (r.relationshipType.getD "", r.startLabel, r.endLabel)

/-- The record-to-row copy performed by the loop of lines 89-96 when the
`relationshipType` field is present. -/
def relToRow (r : RelRecord) : RelStatRow :=
  ⟨r.relationshipType.getD "", r.startLabel, r.endLabel, r.count⟩

/-- The rows printed for an edge set: the relationship query's records fed
through `get_relationship_stats`. -/
def relOutput (es : List Edge) : List RelStatRow :=
  (get_relationship_stats (.ok (relQueryRecords es))).1

/-! ### Helper lemmas about the node/index combine loop -/

lemma foldl_append_eq (g : NodeEntry → List NodeStatRow) :
    ∀ (nodes : List NodeEntry) (acc : List NodeStatRow),
      nodes.foldl (fun a n => a ++ g n) acc = acc ++ nodes.flatMap g
  | [], acc => by simp
  | n :: rest, acc => by
      simp only [List.foldl_cons, List.flatMap_cons]
      rw [foldl_append_eq g rest, List.append_assoc]

lemma combineStats_eq_flatMap (nodes : List NodeEntry) (idxs : List IndexInfo) :
    combineStats nodes idxs =
      nodes.flatMap (fun n => rowsForNode idxs n.label n.count) := by
  unfold combineStats
  have hfun : (fun (final_stats : List NodeStatRow) (node : NodeEntry) =>
      let label_indexes := idxs.filter (indexMatches node.label)
      if label_indexes.isEmpty then
        final_stats ++ [noIndexRow node.label node.count]
      else
        final_stats ++ label_indexes.map (mkIndexRow node.label node.count))
      = fun final_stats node =>
          final_stats ++ rowsForNode idxs node.label node.count := by
    funext a n
    simp only [rowsForNode]
    split <;> rfl
  rw [hfun, foldl_append_eq]
  rfl

lemma mem_rowsForNode {idxs : List IndexInfo} {l : String} {c : Int}
    {row : NodeStatRow} (h : row ∈ rowsForNode idxs l c) :
    row.nodeLabel = l ∧ row.count = c := by
  simp only [rowsForNode] at h
  split at h
  · rcases List.mem_singleton.mp h with rfl
    exact ⟨rfl, rfl⟩
  · rcases List.mem_map.mp h with ⟨i, _, rfl⟩
    exact ⟨rfl, rfl⟩

lemma rowsForNode_ne_nil (idxs : List IndexInfo) (l : String) (c : Int) :
    rowsForNode idxs l c ≠ [] := by
  simp only [rowsForNode]
  split
  · simp
  · next h =>
    simp only [ne_eq, List.map_eq_nil_iff]
    simpa [List.isEmpty_iff] using h

lemma filter_combineStats (nodes : List NodeEntry) (idxs : List IndexInfo)
    (L : String) :
    (combineStats nodes idxs).filter (fun r => r.nodeLabel == L) =
      (nodes.filter (fun m => m.label == L)).flatMap
        (fun m => rowsForNode idxs m.label m.count) := by
  rw [combineStats_eq_flatMap]
  induction nodes with
  | nil => simp
  | cons n rest ih =>
    simp only [List.flatMap_cons, List.filter_append, List.filter_cons]
    by_cases h : n.label = L
    · subst h
      have hall : (rowsForNode idxs n.label n.count).filter
          (fun r => r.nodeLabel == n.label) = rowsForNode idxs n.label n.count :=
        List.filter_eq_self.mpr (fun row hrow => by
          simp [(mem_rowsForNode hrow).1])
      simp [hall, ih]
    · have hnone : (rowsForNode idxs n.label n.count).filter
          (fun r => r.nodeLabel == L) = [] :=
        List.filter_eq_nil_iff.mpr (fun row hrow => by
          simp [(mem_rowsForNode hrow).1, h])
      simp [h, hnone, ih]

lemma filter_label_of_nodup {nodes : List NodeEntry} {n : NodeEntry}
    (hnd : (nodes.map NodeEntry.label).Nodup) (hmem : n ∈ nodes) :
    nodes.filter (fun m => m.label == n.label) = [n] := by
  induction nodes with
  | nil => cases hmem
  | cons a rest ih =>
    simp only [List.map_cons, List.nodup_cons] at hnd
    rcases List.mem_cons.mp hmem with rfl | hmem'
    · rw [List.filter_cons_of_pos (by simp)]
      have hrest : rest.filter (fun m => m.label == n.label) = [] :=
        List.filter_eq_nil_iff.mpr (fun m hm hbeq => by
          exact hnd.1 (by
            have : m.label = n.label := by simpa using hbeq
            exact this ▸ List.mem_map_of_mem NodeEntry.label hm))
      rw [hrest]
    · have hne : ¬ (a.label = n.label) := fun he =>
        hnd.1 (he ▸ List.mem_map_of_mem NodeEntry.label hmem')
      rw [List.filter_cons_of_neg (by simpa using hne)]
      exact ih hnd.2 hmem'

/-! ### Claim theorems: node/index aggregation -/

/-- C1: for a label with count `C` and no matching index descriptor, the
combine loop of `get_node_stats` emits exactly one row for that label,
carrying the count and the sentinel values `"No Index"` / `"N/A"` /
`"N/A"`; and every input label count yields at least one output row. -/
theorem claim_C1_no_index_fallback
    (nodes : List NodeEntry) (idxs : List IndexInfo) (n : NodeEntry)
    (hnd : (nodes.map NodeEntry.label).Nodup) (hmem : n ∈ nodes)
    (hno : idxs.filter (indexMatches n.label) = []) :
    (combineStats nodes idxs).filter (fun r => r.nodeLabel == n.label) =
      [{ nodeLabel := n.label, count := n.count, indexName := "No Index",
         indexType := "N/A", indexedProperty := "N/A" }]
    ∧ ∀ m ∈ nodes, ∃ row ∈ combineStats nodes idxs,
        row.nodeLabel = m.label ∧ row.count = m.count := by
  constructor
  · rw [filter_combineStats, filter_label_of_nodup hnd hmem]
    simp only [List.flatMap_cons, List.flatMap_nil, List.append_nil]
    unfold rowsForNode
    rw [hno]
    rfl
  · intro m hm
    rcases List.exists_mem_of_ne_nil _ (rowsForNode_ne_nil idxs m.label m.count)
      with ⟨row, hrow⟩
    refine ⟨row, ?_, mem_rowsForNode hrow⟩
    rw [combineStats_eq_flatMap]
    exact List.mem_flatMap_of_mem hm hrow

/-- Witness for C1 at a concrete input: one label, empty catalog. -/
theorem claim_C1_witness :
    (combineStats [⟨"A", 5⟩] []).filter (fun r => r.nodeLabel == "A") =
      [{ nodeLabel := "A", count := 5, indexName := "No Index",
         indexType := "N/A", indexedProperty := "N/A" }] :=
  (claim_C1_no_index_fallback [⟨"A", 5⟩] [] ⟨"A", 5⟩
    (by decide) (by decide) (by decide)).1

/-- C2: for a label with `N ≥ 1` matching index descriptors, the combine
loop emits exactly the `N` rows built from those descriptors in catalog
order, each carrying the same label and count, with the descriptor's
properties joined by `", "` in their original order; the fan-out does not
depend on the count (the statement holds for every `n.count : Int`,
including `0`). -/
theorem claim_C2_index_fanout
    (nodes : List NodeEntry) (idxs : List IndexInfo) (n : NodeEntry)
    (hnd : (nodes.map NodeEntry.label).Nodup) (hmem : n ∈ nodes)
    (hsome : idxs.filter (indexMatches n.label) ≠ []) :
    (combineStats nodes idxs).filter (fun r => r.nodeLabel == n.label) =
      (idxs.filter (indexMatches n.label)).map (fun idx =>
        { nodeLabel := n.label, count := n.count,
          indexName := idx.name.getD "N/A",
          indexType := idx.type.getD "N/A",
          indexedProperty := String.intercalate ", " (idx.properties.getD []) })
    ∧ ((combineStats nodes idxs).filter
        (fun r => r.nodeLabel == n.label)).length =
      (idxs.filter (indexMatches n.label)).length := by
  have key : (combineStats nodes idxs).filter
      (fun r => r.nodeLabel == n.label) =
      (idxs.filter (indexMatches n.label)).map (mkIndexRow n.label n.count) := by
    rw [filter_combineStats, filter_label_of_nodup hnd hmem]
    simp only [List.flatMap_cons, List.flatMap_nil, List.append_nil]
    unfold rowsForNode
    rw [if_neg (by simpa [List.isEmpty_iff] using hsome)]
  exact ⟨key, by rw [key, List.length_map]⟩

/-- Witness for C2 at a concrete input with count `0`, demonstrating that
the fan-out also happens for a zero count. -/
theorem claim_C2_witness :
    (combineStats [⟨"Person", 0⟩]
        [⟨some "idx1", none, some ["Person"], some ["email", "age"]⟩]).filter
        (fun r => r.nodeLabel == "Person") =
      [{ nodeLabel := "Person", count := 0, indexName := "idx1",
         indexType := "N/A", indexedProperty := "email, age" }] :=
  ((claim_C2_index_fanout [⟨"Person", 0⟩]
      [⟨some "idx1", none, some ["Person"], some ["email", "age"]⟩]
      ⟨"Person", 0⟩ (by decide) (by decide) (by decide)).1).trans (by decide)

/-- C3: when the `SHOW INDEXES` query fails, `get_node_stats` proceeds
with an empty index list: it returns normally, every emitted row carries
the `"No Index"` / `"N/A"` sentinels, the rows are exactly those of a run
with an empty catalog, and the failure is reported as a warning. -/
theorem claim_C3_catalog_failure_degrades
    (lq : Except String (List LabelRecord)) (e : String) :
    (∀ row ∈ (get_node_stats lq (.error e)).1,
        row.indexName = "No Index" ∧ row.indexType = "N/A" ∧
        row.indexedProperty = "N/A")
    ∧ (get_node_stats lq (.error e)).1 = (get_node_stats lq (.ok [])).1
    ∧ ("Warning: Could not fetch index information: " ++ e) ∈
        (get_node_stats lq (.error e)).2 := by
  refine ⟨?_, rfl, ?_⟩
  · intro row hrow
    have hrow' : row ∈ combineStats (processNodeRecords lq).1 [] := hrow
    rw [combineStats_eq_flatMap] at hrow'
    rcases List.mem_flatMap.mp hrow' with ⟨n, _, hn⟩
    have : row = noIndexRow n.label n.count := by
      simpa [rowsForNode] using hn
    subst this
    exact ⟨rfl, rfl, rfl⟩
  · show _ ∈ (processNodeRecords lq).2 ++ [_]
    exact List.mem_append_right _ (List.mem_singleton.mpr rfl)

/-- C4: each of the three queries is independently fault-tolerant: a
failing query yields a warning and an empty result for that query only;
the functions return normally, a label-query failure does not prevent the
index query (its warning still appears), an index-query failure leaves the
node rows exactly as with an empty catalog, and a relationship-query
failure yields an empty row list with a warning. -/
theorem claim_C4_independent_fault_tolerance
    (e1 e2 e3 : String) (lrecs : List LabelRecord) (idxs : List IndexInfo) :
    get_node_stats (.error e1) (.error e2) =
      ([], ["Warning: Error processing node labels: " ++ e1,
            "Warning: Could not fetch index information: " ++ e2])
    ∧ get_node_stats (.error e1) (.ok idxs) =
        ([], ["Warning: Error processing node labels: " ++ e1])
    ∧ (get_node_stats (.ok lrecs) (.error e2)).1 =
        (get_node_stats (.ok lrecs) (.ok [])).1
    ∧ (get_node_stats (.ok lrecs) (.error e2)).2 =
        ["Warning: Could not fetch index information: " ++ e2]
    ∧ get_relationship_stats (.error e3) =
        ([], ["Warning: Error processing relationships: " ++ e3]) :=
  ⟨rfl, rfl, rfl, rfl, rfl⟩

/-- C6 counterexample: on `LabelCounts = [{Person,10},{Company,3}]` and
the single index `{name := "idx1", labelsOrTypes := ["Person"],
properties := ["email"]}` (no `type` field), the output is NOT the pair of
rows claimed, whose first row has index type `""`: the code defaults a
missing `type` to `"N/A"`, not to the empty string. -/
theorem claim_C6_counterexample :
    ¬ (combineStats [⟨"Person", 10⟩, ⟨"Company", 3⟩]
        [⟨some "idx1", none, some ["Person"], some ["email"]⟩] =
      [⟨"Person", 10, "idx1", "", "email"⟩,
       ⟨"Company", 3, "No Index", "N/A", "N/A"⟩]) := by
  decide

/-- C6 amended: on the same input the aggregation produces exactly the two
rows `[{Person, 10, "idx1", "N/A", "email"},
{Company, 3, "No Index", "N/A", "N/A"}]`, in that order: the index-type
field of the first row is `"N/A"` (the default for a descriptor without a
`type` entry), not the empty string. -/
theorem claim_C6_amended_example :
    combineStats [⟨"Person", 10⟩, ⟨"Company", 3⟩]
        [⟨some "idx1", none, some ["Person"], some ["email"]⟩] =
      [⟨"Person", 10, "idx1", "N/A", "email"⟩,
       ⟨"Company", 3, "No Index", "N/A", "N/A"⟩] := by
  decide

/-- C7: `main` closes the connection exactly once on every exit path on
which the connection object was constructed — normal completion and
failing body alike — and never closes it when construction itself
failed (the connection never existed). -/
theorem claim_C7_close_exactly_once
    (body : Except String Unit) (e : String) :
    (runMain (.ok ()) body).closeCalls = 1
    ∧ (runMain (.ok ()) (.ok ())).closeCalls = 1
    ∧ (runMain (.ok ()) (.error e)).closeCalls = 1
    ∧ (runMain (.error e) body).closeCalls = 0 := by
  refine ⟨?_, rfl, rfl, rfl⟩
  cases body <;> rfl

/-- C8: `get_db_choice` returns exactly when the input sequence contains a
(stripped) `"1"` or `"2"`; the result is determined by the first such
entry: the local credential triple for `"1"`, the remote one for `"2"`;
with no valid entry it consumes the whole sequence without returning. -/
theorem claim_C8_db_choice_first_valid
    (env : String → Option String) (inputs : List String) :
    get_db_choice env inputs =
      (inputs.find? validChoice).map (fun s =>
        if s.trim = "1" then
          (env "LOCAL_NEO4J_URI", env "LOCAL_NEO4J_USERNAME",
           env "LOCAL_NEO4J_PASSWORD")
        else
          (env "NEO4J_URI", env "NEO4J_USERNAME", env "NEO4J_PASSWORD")) := by
  induction inputs with
  | nil => rfl
  | cons c rest ih =>
    by_cases h1 : c.trim = "1"
    · simp [get_db_choice, validChoice, h1, List.find?_cons]
    · by_cases h2 : c.trim = "2"
      · simp [get_db_choice, validChoice, h1, h2, List.find?_cons]
      · simp [get_db_choice, validChoice, h1, h2, List.find?_cons, ih]

lemma filterMap_filter_isSome {α β : Type} (f : α → Option β)
    (p : α → Bool) (hp : ∀ a, p a = false → f a = none) :
    ∀ l : List α, (l.filter p).filterMap f = l.filterMap f
  | [] => rfl
  | a :: l => by
    cases hpa : p a with
    | false =>
      rw [List.filter_cons_of_neg (by simp [hpa]),
        List.filterMap_cons_none (hp a hpa), filterMap_filter_isSome f p hp l]
    | true =>
      rw [List.filter_cons_of_pos (by simp [hpa]), List.filterMap_cons,
        List.filterMap_cons, filterMap_filter_isSome f p hp l]

/-- C9: records whose `label` (node query) or `relationshipType`
(relationship query) is missing are silently skipped: deleting them from
the input changes nothing, and every output row's label / relationship
type originates from a record where that field was present — so no output
row carries a null label or null relationship type. -/
theorem claim_C9_null_records_skipped
    (recs : List LabelRecord) (iq : Except String (List IndexInfo))
    (rrecs : List RelRecord) :
    get_node_stats (.ok recs) iq =
      get_node_stats (.ok (recs.filter (fun r => r.label.isSome))) iq
    ∧ (∀ row ∈ (get_node_stats (.ok recs) iq).1,
        ∃ rec ∈ recs, rec.label = some row.nodeLabel)
    ∧ get_relationship_stats (.ok rrecs) =
        get_relationship_stats (.ok (rrecs.filter (fun r => r.relationshipType.isSome)))
    ∧ (∀ row ∈ (get_relationship_stats (.ok rrecs)).1,
        ∃ rec ∈ rrecs, rec.relationshipType = some row.relationship) := by
  refine ⟨?_, ?_, ?_, ?_⟩
  · have h : (recs.filter (fun r => r.label.isSome)).filterMap
        (fun r => r.label.map (fun l => (⟨l, r.count⟩ : NodeEntry))) =
        recs.filterMap (fun r => r.label.map (fun l => ⟨l, r.count⟩)) := by
      apply filterMap_filter_isSome
      intro a ha
      rcases hl : a.label with _ | l
      · rfl
      · rw [hl] at ha; simp at ha
    simp only [get_node_stats, processNodeRecords, h]
  · intro row hrow
    have hrow' : row ∈ combineStats (processNodeRecords (.ok recs)).1
        (fetchIndexInfo iq).1 := hrow
    rw [combineStats_eq_flatMap] at hrow'
    rcases List.mem_flatMap.mp hrow' with ⟨n, hn, hrown⟩
    have hlab : row.nodeLabel = n.label := (mem_rowsForNode hrown).1
    have hn' : n ∈ recs.filterMap
        (fun r => r.label.map (fun l => (⟨l, r.count⟩ : NodeEntry))) := hn
    rcases List.mem_filterMap.mp hn' with ⟨rec, hrec, hfr⟩
    refine ⟨rec, hrec, ?_⟩
    rcases hl : rec.label with _ | l
    · rw [hl] at hfr; cases hfr
    · rw [hl] at hfr
      simp only [Option.map_some, Option.map_some, Option.map] at hfr
      simp at hfr
      rw [hlab, ← hfr]
  · have h : (rrecs.filter (fun r => r.relationshipType.isSome)).filterMap
        (fun r => r.relationshipType.map
          (fun t => (⟨t, r.startLabel, r.endLabel, r.count⟩ : RelStatRow))) =
        rrecs.filterMap (fun r => r.relationshipType.map
          (fun t => ⟨t, r.startLabel, r.endLabel, r.count⟩)) := by
      apply filterMap_filter_isSome
      intro a ha
      rcases hl : a.relationshipType with _ | t
      · rfl
      · rw [hl] at ha; simp at ha
    simp only [get_relationship_stats, h]
  · intro row hrow
    have hrow' : row ∈ rrecs.filterMap (fun r => r.relationshipType.map
        (fun t => (⟨t, r.startLabel, r.endLabel, r.count⟩ : RelStatRow))) := hrow
    rcases List.mem_filterMap.mp hrow' with ⟨rec, hrec, hfr⟩
    refine ⟨rec, hrec, ?_⟩
    rcases hl : rec.relationshipType with _ | t
    · rw [hl] at hfr; cases hfr
    · rw [hl] at hfr
      simp only [Option.map_some, Option.map_some, Option.map] at hfr
      simp at hfr
      rw [← hfr]

/-- C10: the combine loop preserves order: its output is exactly the
concatenation, in input order, of one block of rows per label (so rows are
grouped by label in the order the counts arrive); within a block the index
names appear in the catalog's original order (a filter of it); and if the
input is sorted by label (as the query's `ORDER BY label` produces), the
output rows are sorted by label as well. -/
theorem claim_C10_order_preserved
    (nodes : List NodeEntry) (idxs : List IndexInfo) :
    combineStats nodes idxs =
      nodes.flatMap (fun n => rowsForNode idxs n.label n.count)
    ∧ (∀ l c, (rowsForNode idxs l c).map NodeStatRow.indexName =
        if (idxs.filter (indexMatches l)).isEmpty then ["No Index"]
        else (idxs.filter (indexMatches l)).map (fun i => i.name.getD "N/A"))
    ∧ (nodes.Pairwise (fun a b => a.label ≤ b.label) →
        (combineStats nodes idxs).Pairwise
          (fun a b => a.nodeLabel ≤ b.nodeLabel)) := by
  refine ⟨combineStats_eq_flatMap nodes idxs, ?_, ?_⟩
  · intro l c
    simp only [rowsForNode]
    split
    · rfl
    · rw [List.map_map]; rfl
  · intro hsorted
    rw [combineStats_eq_flatMap, List.pairwise_flatMap]
    constructor
    · intro n _
      apply List.pairwise_of_forall_mem_list
      intro a ha b hb
      rw [(mem_rowsForNode ha).1, (mem_rowsForNode hb).1]
    · refine hsorted.imp ?_
      intro a b hab x hx y hy
      rw [(mem_rowsForNode hx).1, (mem_rowsForNode hy).1]
      exact hab

/-! ### Helper lemmas about the relationship aggregation -/

lemma mem_foldl_triples (t : String × String × String) :
    ∀ (es : List Edge) (acc : List (String × String × String)),
      (t ∈ es.foldl (fun acc e => if tripleOf e ∈ acc then acc
          else acc ++ [tripleOf e]) acc) ↔ t ∈ acc ∨ ∃ e ∈ es, tripleOf e = t
  | [], acc => by simp
  | e :: es, acc => by
    rw [List.foldl_cons, mem_foldl_triples t es]
    by_cases h : tripleOf e ∈ acc
    · rw [if_pos h]
      constructor
      · rintro (h1 | ⟨e', he', rfl⟩)
        · exact Or.inl h1
        · exact Or.inr ⟨e', List.mem_cons_of_mem _ he', rfl⟩
      · rintro (h1 | ⟨e', he', rfl⟩)
        · exact Or.inl h1
        · rcases List.mem_cons.mp he' with rfl | he''
          · exact Or.inl h
          · exact Or.inr ⟨e', he'', rfl⟩
    · rw [if_neg h]
      constructor
      · rintro (h1 | ⟨e', he', rfl⟩)
        · rcases List.mem_append.mp h1 with h2 | h2
          · exact Or.inl h2
          · exact Or.inr ⟨e, List.mem_cons_self e es,
              (List.mem_singleton.mp h2).symm⟩
        · exact Or.inr ⟨e', List.mem_cons_of_mem _ he', rfl⟩
      · rintro (h1 | ⟨e', he', rfl⟩)
        · exact Or.inl (List.mem_append_left _ h1)
        · rcases List.mem_cons.mp he' with rfl | he''
          · exact Or.inl (List.mem_append_right _ (List.mem_singleton.mpr rfl))
          · exact Or.inr ⟨e', he'', rfl⟩

lemma mem_distinctTriples (t : String × String × String) (es : List Edge) :
    t ∈ distinctTriples es ↔ ∃ e ∈ es, tripleOf e = t := by
  rw [distinctTriples, mem_foldl_triples t es]
  simp

lemma nodup_foldl_triples :
    ∀ (es : List Edge) (acc : List (String × String × String)), acc.Nodup →
      (es.foldl (fun acc e => if tripleOf e ∈ acc then acc
        else acc ++ [tripleOf e]) acc).Nodup
  | [], _, h => h
  | e :: es, acc, h => by
    rw [List.foldl_cons]
    by_cases hm : tripleOf e ∈ acc
    · rw [if_pos hm]
      exact nodup_foldl_triples es acc h
    · rw [if_neg hm]
      exact nodup_foldl_triples es _
        (by simp [List.nodup_append, h, hm, List.disjoint_singleton])

lemma nodup_distinctTriples (es : List Edge) : (distinctTriples es).Nodup :=
  nodup_foldl_triples es [] List.nodup_nil

lemma tripleCount_pos {es : List Edge} {t : String × String × String}
    (h : ∃ e ∈ es, tripleOf e = t) : 1 ≤ tripleCount es t := by
  rcases h with ⟨e, he, rfl⟩
  have : e ∈ es.filter (fun e' => tripleOf e' = tripleOf e) :=
    List.mem_filter.mpr ⟨he, by simp⟩
  exact Nat.succ_le_of_lt (List.length_pos_of_mem this)

lemma rel_rows_eq_map :
    ∀ l : List RelRecord, (∀ r ∈ l, r.relationshipType.isSome = true) →
      (get_relationship_stats (.ok l)).1 = l.map relToRow
  | [], _ => rfl
  | r :: l, h => by
    rcases Option.isSome_iff_exists.mp (h r (List.mem_cons_self r l)) with ⟨t, ht⟩
    have hrec : (get_relationship_stats (.ok l)).1 = l.map relToRow :=
      rel_rows_eq_map l (fun x hx => h x (List.mem_cons_of_mem _ hx))
    simp only [get_relationship_stats, List.filterMap_cons, List.map_cons, ht,
      Option.map] at hrec ⊢
    rw [hrec]
    simp [relToRow, ht]

lemma relOutput_eq_map (es : List Edge) :
    relOutput es = (relQueryRecords es).map relToRow := by
  apply rel_rows_eq_map
  intro r hr
  have hr' : r ∈ (distinctTriples es).map (fun t =>
      (⟨some t.1, t.2.1, t.2.2, (tripleCount es t : Int)⟩ : RelRecord)) :=
    List.mem_insertionSort countGE |>.mp hr
  rcases List.mem_map.mp hr' with ⟨t, _, rfl⟩
  rfl

/-- C5: the relationship pipeline (the query of lines 75-85 followed by
the record loop of lines 87-100) emits exactly one row per distinct
`(relationship type, start label, end label)` triple occurring in the edge
set; each row's count equals the size of its group and is at least `1`;
and the rows are sorted by count in descending order (adjacent rows `a, b`
satisfy `b.count ≤ a.count`). -/
theorem claim_C5_relationship_grouping (es : List Edge) :
    ((relOutput es).map rowTriple).Nodup
    ∧ (∀ t : String × String × String,
        t ∈ (relOutput es).map rowTriple ↔ ∃ e ∈ es, tripleOf e = t)
    ∧ (∀ row ∈ relOutput es,
        row.count = (tripleCount es (rowTriple row) : Int) ∧ 1 ≤ row.count)
    ∧ (relOutput es).Pairwise (fun a b => b.count ≤ a.count) := by
  have hbase : ∀ r ∈ (distinctTriples es).map (fun t =>
      (⟨some t.1, t.2.1, t.2.2, (tripleCount es t : Int)⟩ : RelRecord)),
      recTriple r ∈ distinctTriples es ∧
      r.count = (tripleCount es (recTriple r) : Int) := by
    intro r hr
    rcases List.mem_map.mp hr with ⟨t, ht, rfl⟩
    exact ⟨ht, rfl⟩
  have hperm : List.Perm (relQueryRecords es) ((distinctTriples es).map (fun t =>
      (⟨some t.1, t.2.1, t.2.2, (tripleCount es t : Int)⟩ : RelRecord))) :=
    List.perm_insertionSort countGE _
  have hmapmap : (relOutput es).map rowTriple =
      (relQueryRecords es).map recTriple := by
    rw [relOutput_eq_map, List.map_map]
    rfl
  have hbasetriples : ((distinctTriples es).map (fun t =>
      (⟨some t.1, t.2.1, t.2.2, (tripleCount es t : Int)⟩ : RelRecord))).map
        recTriple = distinctTriples es := by
    rw [List.map_map]
    have hid : (recTriple ∘ fun t => (⟨some t.1, t.2.1, t.2.2,
        (tripleCount es t : Int)⟩ : RelRecord)) = id := by
      funext t
      rfl
    rw [hid, List.map_id]
  have htriples_perm :
      List.Perm ((relOutput es).map rowTriple) (distinctTriples es) := by
    rw [hmapmap, ← hbasetriples]
    exact hperm.map recTriple
  refine ⟨?_, ?_, ?_, ?_⟩
  · exact htriples_perm.nodup_iff.mpr (nodup_distinctTriples es)
  · intro t
    rw [htriples_perm.mem_iff]
    exact mem_distinctTriples t es
  · intro row hrow
    rw [relOutput_eq_map] at hrow
    rcases List.mem_map.mp hrow with ⟨r, hr, rfl⟩
    have hr' := hbase r (hperm.mem_iff.mp hr)
    have hkey : rowTriple (relToRow r) = recTriple r := rfl
    have hcount : (relToRow r).count = r.count := rfl
    refine ⟨by rw [hkey, hcount, hr'.2], ?_⟩
    rw [hcount, hr'.2]
    exact_mod_cast tripleCount_pos ((mem_distinctTriples _ es).mp hr'.1)
  · rw [relOutput_eq_map]
    have hsorted : (relQueryRecords es).Pairwise countGE :=
      List.sorted_insertionSort countGE _
    exact hsorted.map relToRow (fun a b hab => hab)

end DbStats
